import Mathlib

/-!
Shallow embedding of the `hsherkat/algebra` repository (files
`pauli_group.py` and `pauli_algebra.py`) and verification of the frozen
claims about its specification.

Modelling conventions:

* Python complex numbers are modelled exactly as pairs of rationals
  (`Cplx`).  Every scalar appearing in the claims and tests (fourth
  roots of unity, small integers) is represented exactly by both the
  Python floats and by rationals, so the exact model and the float
  implementation agree on all values this development evaluates.
* Fallible Python code (a `raise` reachable from the public interface)
  is modelled with `Except PyErr`.  `PyErr` has one constructor per
  exception class the source can raise.
* `frozen=True` dataclasses become plain structures; the tuple of
  factors becomes a `List`.
* Python `dict`s keyed by `PauliTensor` become insertion-ordered
  association lists (`CoeffMap`).  CPython matches two dict keys iff
  their hashes are equal and they compare equal with `__eq__`.
  `PauliTensor` defines a custom (normalization-based) `__eq__`, but
  being a frozen `eq=True` dataclass it still receives the
  auto-generated `__hash__`, which hashes the raw field tuple
  `(phase, tensor)`.  Hence two keys are guaranteed to match (for every
  hash seed) exactly when their raw field tuples are equal; keys with
  distinct raw fields hash differently for a generic seed even when
  `__eq__` holds.  The dict model therefore matches keys by structural
  equality of `(phase, tensor)`; see `PauliTensor.structKey`.
-/

/-- Exact model of Python `complex`: a pair of rationals. -/
@[ext]
structure Cplx where
  re : ℚ
  im : ℚ
deriving DecidableEq, Repr

namespace Cplx

def ofRat (q : ℚ) : Cplx := ⟨q, 0⟩

instance : Zero Cplx := ⟨⟨0, 0⟩⟩
instance : One Cplx := ⟨⟨1, 0⟩⟩

instance : Add Cplx := ⟨fun a b => ⟨a.re + b.re, a.im + b.im⟩⟩
instance : Neg Cplx := ⟨fun a => ⟨-a.re, -a.im⟩⟩
instance : Mul Cplx := ⟨fun a b => ⟨a.re * b.re - a.im * b.im, a.re * b.im + a.im * b.re⟩⟩

/-- The imaginary unit, Python's `1j`. -/
def imagUnit : Cplx := ⟨0, 1⟩

@[simp] theorem zero_def : (0 : Cplx) = ⟨0, 0⟩ := rfl
@[simp] theorem one_def : (1 : Cplx) = ⟨1, 0⟩ := rfl
@[simp] theorem add_def (a b : Cplx) : a + b = ⟨a.re + b.re, a.im + b.im⟩ := rfl
@[simp] theorem neg_def (a : Cplx) : -a = ⟨-a.re, -a.im⟩ := rfl
@[simp] theorem mul_def (a b : Cplx) :
    a * b = ⟨a.re * b.re - a.im * b.im, a.re * b.im + a.im * b.re⟩ := rfl

instance : CommRing Cplx where
  add := (· + ·)
  add_assoc a b c := by ext <;> simp <;> ring
  zero_add a := by ext <;> simp
  add_zero a := by ext <;> simp
  add_comm a b := by ext <;> simp <;> ring
  mul := (· * ·)
  mul_assoc a b c := by ext <;> simp <;> ring
  one_mul a := by ext <;> simp
  mul_one a := by ext <;> simp
  left_distrib a b c := by ext <;> simp <;> ring
  right_distrib a b c := by ext <;> simp <;> ring
  zero_mul a := by ext <;> simp
  mul_zero a := by ext <;> simp
  neg_add_cancel a := by ext <;> simp
  mul_comm a b := by ext <;> simp <;> ring
  nsmul := nsmulRec
  zsmul := zsmulRec

/-- Exact complex reciprocal, `1 / z` in Python.  CPython raises
`ZeroDivisionError` at `z = 0`; the one reachable call site where the
divisor can be `0` (`PauliAlgebraElement.simplify`) checks for `0`
explicitly and signals `PyErr.zeroDivision` there, matching the raise. -/
def cinv (z : Cplx) : Cplx :=
  ⟨z.re / (z.re * z.re + z.im * z.im), -z.im / (z.re * z.re + z.im * z.im)⟩

theorem mul_cinv_self {z : Cplx} (hz : z ≠ 0) : z * cinv z = 1 := by
  have hd : z.re * z.re + z.im * z.im ≠ 0 := by
    intro h
    apply hz
    have hre : z.re = 0 ∧ z.im = 0 := by
      constructor
      · nlinarith [mul_self_nonneg z.re, mul_self_nonneg z.im]
      · nlinarith [mul_self_nonneg z.re, mul_self_nonneg z.im]
    ext <;> simp [hre.1, hre.2]
  ext <;> simp [cinv] <;> field_simp <;> ring

end Cplx

/-- Enum `SIGMA` from `pauli_group.py`: the four sigma-matrix labels. -/
inductive SIGMA where
  | I
  | X
  | Y
  | Z
deriving DecidableEq, Repr, Fintype

/-- `SIGMA_LIST = list(SIGMA)`: the fixed ordering `[I, X, Y, Z]`. -/
def SIGMA_LIST : List SIGMA := [.I, .X, .Y, .Z]

/-- `SIGMA_LIST.index(s)`: the ordinal position of a label in `SIGMA_LIST`. -/
def SIGMA.index : SIGMA → Nat
  | .I => 0
  | .X => 1
  | .Y => 2
  | .Z => 3

/-- Helper for `inversions`: how many elements of the tail are smaller
than the head (`x > y` contributions of one head). -/
def countSmaller (x : ℤ) : List ℤ → ℕ
  | [] => 0
  | y :: ys => (if y < x then 1 else 0) + countSmaller x ys

/-- The inversion count of `sign` in `pauli_group.py`:
`sum(x > y for x, y in it.combinations(permutation, 2))` — for every
pair with `x` before `y`, count 1 when `x > y`. -/
def inversions : List ℤ → ℕ
  | [] => 0
  | x :: xs => countSmaller x xs + inversions xs

/-- `sign(permutation) = (-1) ** inversions` from `pauli_group.py`. -/
def sign (permutation : List ℤ) : ℤ := (-1) ^ inversions permutation

/-- The entry `TIMES_TABLE[(idx1, idx2)]` built by `create_times_table` in
`pauli_group.py`, as a function of the two indices (the Python dict is
total on `range(4) × range(4)`, the only indices at which it is read). -/
def times_table (idx1 idx2 : ℕ) : Cplx × ℕ :=
  if idx1 = 0 ∨ idx2 = 0 then (1, idx1 + idx2)
  else if idx1 = idx2 then (1, 0)
  else
    let idx3 : ℕ := 6 - idx1 - idx2
    (Cplx.imagUnit * Cplx.ofRat (sign [(idx1 : ℤ), (idx2 : ℤ), ((6 : ℤ) - idx1 - idx2)]), idx3)

/-- Error kinds: one constructor per exception class reachable from the
public interface of the source.  `invalidPhase` is the `ValueError` of
`PauliGroupElement.__post_init__` (spec name `InvalidPhaseError`),
`dimensionMismatch` the `ValueError` of `PauliTensor.__mul__` (spec name
`DimensionMismatchError`), `unsupportedOperand` the `TypeError` Python
raises when every `__mul__`/`__rmul__` returns `NotImplemented` (spec
name `UnsupportedOperandError`), `zeroDivision` the `ZeroDivisionError`
of `1 / factored_phase` in `PauliAlgebraElement.simplify`, and
`keyError` the `KeyError` of the `SIGMA[c]` lookup in
`PauliTensor.from_str`. -/
inductive PyErr where
  | invalidPhase
  | dimensionMismatch
  | unsupportedOperand
  | zeroDivision
  | keyError
deriving DecidableEq, Repr

instance {ε α : Type} [DecidableEq ε] [DecidableEq α] : DecidableEq (Except ε α) := fun a b =>
  match a, b with
  | .error e, .error f => decidable_of_iff (e = f) (by simp)
  | .ok x, .ok y => decidable_of_iff (x = y) (by simp)
  | .error _, .ok _ => .isFalse (fun h => Except.noConfusion h)
  | .ok _, .error _ => .isFalse (fun h => Except.noConfusion h)

/-- The four fourth roots of unity `(1, -1, 1j, -1j)` checked by
`PauliGroupElement.__post_init__`, written as explicit pairs. -/
def fourthRoots : List Cplx := [⟨1, 0⟩, ⟨-1, 0⟩, ⟨0, 1⟩, ⟨0, -1⟩]

/-- Dataclass `PauliGroupElement` from `pauli_group.py`: a phase and a
sigma label.  The fourth-root phase invariant is enforced by the
constructor (`PauliGroupElement.mk?`); the raw structure exists so that
the invariant can be stated, and theorems carry it as the hypothesis
`PauliGroupElement.valid` where it matters. -/
structure PauliGroupElement where
  phase : Cplx := 1
  sigma : SIGMA := .I
deriving DecidableEq, Repr

namespace PauliGroupElement

/-- The constructor invariant of `__post_init__`. -/
def valid (g : PauliGroupElement) : Prop := g.phase ∈ fourthRoots

instance (g : PauliGroupElement) : Decidable g.valid := by
  unfold valid; infer_instance

/-- `PauliGroupElement(phase, sigma)`: the dataclass constructor
including the `__post_init__` check, which raises
`ValueError("Phase must be a fourth root of unity.")` for any phase
outside the four roots. -/
def mk? (phase : Cplx) (sigma : SIGMA) : Except PyErr PauliGroupElement :=
  if phase ∈ fourthRoots then .ok ⟨phase, sigma⟩ else .error .invalidPhase

/-- The scalar branch of `PauliGroupElement.__mul__`:
`PauliGroupElement(self.phase * other, self.sigma)` — note it goes
through the validating constructor. -/
def mulScalar (a : PauliGroupElement) (s : Cplx) : Except PyErr PauliGroupElement :=
  mk? (a.phase * s) a.sigma

/-- `PauliGroupElement.__rmul__` for a complex scalar: `return self * other`. -/
def rmulScalar (s : Cplx) (a : PauliGroupElement) : Except PyErr PauliGroupElement :=
  a.mulScalar s

/-- The group branch of `PauliGroupElement.__mul__`: combine phases,
look the pair of sigma indices up in the times table, and construct
(the table's label index is always `< 4`, so the `SIGMA_LIST[sigma_idx]`
subscript is modelled with a default that is never reached). -/
def mulG (a b : PauliGroupElement) : Except PyErr PauliGroupElement :=
  let combined_phase := a.phase * b.phase
  let p := times_table a.sigma.index b.sigma.index
  mk? (combined_phase * p.1) (SIGMA_LIST.getD p.2 .I)

/-- `PauliGroupElement.__neg__`: `-1 * self`, which dispatches to
`__rmul__` and hence to `self * -1`. -/
def neg (a : PauliGroupElement) : Except PyErr PauliGroupElement :=
  a.mulScalar (-1)

/-- Named constructor `PauliGroupElement.I()` (likewise `X`, `Y`, `Z`):
phase 1 with the given label, always passing validation. -/
def ofSigma (s : SIGMA) : PauliGroupElement := ⟨1, s⟩

end PauliGroupElement

/-- Left-to-right product with initial value 1: Python's
`math.prod(factor.phase for factor in self.tensor)`. -/
def cprod (l : List Cplx) : Cplx := l.foldl (· * ·) 1

/-- `tuple(...)` built from a generator of fallible computations: the
elements are produced left to right and the first raised exception
propagates.  Used for the factor products in `PauliTensor.__mul__` and
the group elements in `PauliTensor.from_str`. -/
def mapE {α β : Type} (f : α → Except PyErr β) : List α → Except PyErr (List β)
  | [] => .ok []
  | x :: xs => do pure ((← f x) :: (← mapE f xs))

/-- A Python `for` loop threading an accumulator, where the body can
raise: the first exception propagates.  Used for the loops in
`PauliAlgebraElement.simplify` and `PauliAlgebraElement.__mul__`. -/
def foldE {γ α : Type} (f : γ → α → Except PyErr γ) : γ → List α → Except PyErr γ
  | init, [] => .ok init
  | init, x :: xs => do foldE f (← f init x) xs

/-- Dataclass `PauliTensor` from `pauli_algebra.py`: a tensor-level
phase (arbitrary complex, default 1) and a tuple of group elements
(default a single identity factor). -/
structure PauliTensor where
  phase : Cplx := ⟨1, 0⟩
  tensor : List PauliGroupElement := [⟨⟨1, 0⟩, .I⟩]
deriving DecidableEq, Repr

namespace PauliTensor

/-- The `PauliTensor()` defaults: phase 1, a single identity factor. -/
def defaultTensor : PauliTensor := {}

/-- `PauliTensor.dim`: the number of factors. -/
def dim (t : PauliTensor) : ℕ := t.tensor.length

/-- All factors satisfy the group-element constructor invariant.  Every
tensor constructible through the source's public interface has this
property, because each factor is a `PauliGroupElement` that passed
`__post_init__` when it was built. -/
def valid (t : PauliTensor) : Prop := ∀ g ∈ t.tensor, g.valid

instance (t : PauliTensor) : Decidable t.valid := by
  unfold valid; infer_instance

/-- `PauliTensor.overall_phase`:
`self.phase * math.prod(factor.phase for factor in self.tensor)`. -/
def overall_phase (t : PauliTensor) : Cplx :=
  t.phase * cprod (t.tensor.map PauliGroupElement.phase)

/-- One factor of the `factor_phase` comprehension:
`factor * (1 / factor.phase)`, i.e. the group-layer scalar
multiplication by the phase's reciprocal.  For every factor that
satisfies the constructor invariant the resulting phase is exactly 1,
so the constructor check inside the group-layer multiplication passes;
the theorems below always carry that invariant (`PauliTensor.valid`). -/
def dephase (f : PauliGroupElement) : PauliGroupElement :=
  ⟨f.phase * Cplx.cinv f.phase, f.sigma⟩

/-- `PauliTensor.factor_phase`: move every per-factor phase into the
tensor-level phase. -/
def factor_phase (t : PauliTensor) : PauliTensor :=
  ⟨t.overall_phase, t.tensor.map dephase⟩

/-- `PauliTensor.__eq__`: compare the two normalized forms — equal
tensor-level phase and equal (structurally) factor tuples. -/
def beq (a b : PauliTensor) : Bool :=
  if a.factor_phase.phase = b.factor_phase.phase
      ∧ a.factor_phase.tensor = b.factor_phase.tensor then true else false

/-- The scalar branch of `PauliTensor.__mul__` and of
`PauliTensor.__rmul__` (both build `PauliTensor(self.phase * other,
self.tensor)`; the tensor constructor performs no validation). -/
def mulScalar (t : PauliTensor) (s : Cplx) : PauliTensor :=
  ⟨t.phase * s, t.tensor⟩

/-- The tensor branch of `PauliTensor.__mul__`: raise on dimension
mismatch, normalize both operands, multiply factorwise, then return
`phase * tensor.factor_phase()` where `phase` is the product of the two
normalized tensor-level phases. -/
def mul (a b : PauliTensor) : Except PyErr PauliTensor :=
  if a.dim ≠ b.dim then .error .dimensionMismatch
  else do
    -- `s_simple, o_simple = self.factor_phase(), other.factor_phase()`;
    -- `phase = s_simple.phase * o_simple.phase`; the raw product tensor is
    -- built with the default phase 1 and the factorwise products, and the
    -- returned value is `phase * tensor.factor_phase()`.
    let factors ← mapE (fun p => p.1.mulG p.2) (a.factor_phase.tensor.zip b.factor_phase.tensor)
    pure ((PauliTensor.mk ⟨1, 0⟩ factors).factor_phase.mulScalar
      (a.factor_phase.phase * b.factor_phase.phase))

/-- `PauliTensor.__neg__`: `-1 * self`, which dispatches to `__rmul__`
and builds `PauliTensor(self.phase * -1, self.tensor)`. -/
def neg (t : PauliTensor) : PauliTensor := t.mulScalar ⟨-1, 0⟩

/-- The `SIGMA[c]` lookup in `PauliTensor.from_str`: enum lookup by
member name, `KeyError` for any other character. -/
def sigmaOfChar (c : Char) : Except PyErr SIGMA :=
  if c = 'I' then .ok .I
  else if c = 'X' then .ok .X
  else if c = 'Y' then .ok .Y
  else if c = 'Z' then .ok .Z
  else .error .keyError

/-- `PauliTensor.from_str`: phase 1, one phase-1 group element per
character of the input (the group-element constructor check passes
because the phase is literally 1). -/
def from_str (s : String) : Except PyErr PauliTensor := do
  let factors ← mapE (fun c => do pure (⟨⟨1, 0⟩, ← sigmaOfChar c⟩ : PauliGroupElement)) s.data
  pure ⟨⟨1, 0⟩, factors⟩

/-- The raw field tuple `(self.phase, self.tensor)`.  The dataclass
decorator of `PauliTensor` (frozen, `eq=True`, `__eq__` written out in
the class body) adds the auto-generated `__hash__`, which is the hash
of exactly this tuple.  Two tensors therefore hash identically for
every hash seed iff their `structKey`s are equal; for structurally
distinct tensors the underlying hashes differ for a generic seed, even
when the custom normalization-based `__eq__` holds. -/
def structKey (t : PauliTensor) : Cplx × List PauliGroupElement := (t.phase, t.tensor)

end PauliTensor

/-- The mapping wrapped by `PauliAlgebraElement`: a Python `dict` from
`PauliTensor` to complex, modelled as an insertion-ordered association
list.  CPython matches two dict keys iff their hashes agree and
`__eq__` holds; with the structural dataclass `__hash__` of
`PauliTensor` (see `PauliTensor.structKey`) a lookup is guaranteed to
find exactly the entries whose key is structurally equal to the probe,
so the model matches keys with structural equality. -/
abbrev CoeffMap := List (PauliTensor × Cplx)

/-- `d[k] += v` on a `defaultdict` with default 0: update the entry
whose key matches `k`, or append a fresh entry at the end (CPython
dicts preserve insertion order). -/
def dictInsertAdd : CoeffMap → PauliTensor → Cplx → CoeffMap
  | [], k, v => [(k, v)]
  | (k1, v1) :: rest, k, v =>
    if k1 = k then (k1, v1 + v) :: rest else (k1, v1) :: dictInsertAdd rest k v

/-- `d[k]` / `k in d`: the value stored under the matching key, if any. -/
def dictLookup : CoeffMap → PauliTensor → Option Cplx
  | [], _ => none
  | (k1, v1) :: rest, k => if k1 = k then some v1 else dictLookup rest k

/-- Python `dict.__eq__`: same number of entries, and every key of the
left map is present in the right map with an equal value. -/
def dictBeq (d1 d2 : CoeffMap) : Bool :=
  if d1.length = d2.length ∧ ∀ p ∈ d1, dictLookup d2 p.1 = some p.2 then true else false

/-- Dataclass `PauliAlgebraElement` from `pauli_algebra.py`: a formal
complex-linear combination of tensors, stored as the coefficient map. -/
structure PauliAlgebraElement where
  coeffs : CoeffMap
deriving DecidableEq, Repr

namespace PauliAlgebraElement

/-- `PauliAlgebraElement.from_str`: the singleton element
`{PauliTensor.from_str(string): 1}`. -/
def from_str (s : String) : Except PyErr PauliAlgebraElement := do
  let tensor ← PauliTensor.from_str s
  pure ⟨[(tensor, ⟨1, 0⟩)]⟩

/-- `PauliAlgebraElement.simplify`: for each entry `(tensor, coeff)`,
factor the tensor's phase out, divide the key by that phase
(`1 / factored_phase` raises `ZeroDivisionError` when the factored
phase is 0 — the explicit check here) and accumulate
`coeff * factored_phase` under the divided key. -/
def simplify (A : PauliAlgebraElement) : Except PyErr PauliAlgebraElement := do
  -- per entry: `factored_tensor = tensor.factor_phase()`,
  -- `factored_phase = factored_tensor.phase`, and
  -- `new_coeffs[factored_tensor * (1 / factored_phase)] += coeff * factored_phase`.
  let new_coeffs ← foldE (fun acc (p : PauliTensor × Cplx) =>
    if p.1.factor_phase.phase = 0 then .error .zeroDivision
    else
      pure (dictInsertAdd acc
        (p.1.factor_phase.mulScalar (Cplx.cinv p.1.factor_phase.phase))
        (p.2 * p.1.factor_phase.phase))) [] A.coeffs
  pure ⟨new_coeffs⟩

/-- `PauliAlgebraElement.__eq__`: simplify both sides and compare the
coefficient maps as dicts. -/
def beqA (a b : PauliAlgebraElement) : Except PyErr Bool := do
  pure (dictBeq (← a.simplify).coeffs (← b.simplify).coeffs)

/-- `PauliAlgebraElement.__add__`: accumulate both coefficient maps,
raw keys, left operand's entries first. -/
def add (a b : PauliAlgebraElement) : PauliAlgebraElement :=
  ⟨(a.coeffs ++ b.coeffs).foldl (fun acc p => dictInsertAdd acc p.1 p.2) []⟩

/-- The scalar branch of `PauliAlgebraElement.__mul__` (and, via
`__rmul__`, of `scalar * element`):
`{tensor: other * coeff for tensor, coeff in self.coeffs.items()}`. -/
def mulScalar (A : PauliAlgebraElement) (s : Cplx) : PauliAlgebraElement :=
  ⟨A.coeffs.map (fun p => (p.1, s * p.2))⟩

/-- The element branch of `PauliAlgebraElement.__mul__`: distribute
over all pairs of entries (`itertools.product` order, left entry
outermost), multiplying the key tensors (which can raise) and
accumulating the coefficient products. -/
def mulA (a b : PauliAlgebraElement) : Except PyErr PauliAlgebraElement := do
  let product_coeffs ← foldE (fun acc (sp : PauliTensor × Cplx) =>
    foldE (fun acc2 (op : PauliTensor × Cplx) => do
      let key ← sp.1.mul op.1
      pure (dictInsertAdd acc2 key (sp.2 * op.2))) acc b.coeffs) [] a.coeffs
  pure ⟨product_coeffs⟩

/-- The tensor branch of `PauliAlgebraElement.__mul__`:
`self * PauliAlgebraElement({other: 1})`. -/
def mulTensor (A : PauliAlgebraElement) (t : PauliTensor) : Except PyErr PauliAlgebraElement :=
  A.mulA ⟨[(t, ⟨1, 0⟩)]⟩

/-- What Python's `t * A` evaluates to: `t.__mul__(A)` returns
`NotImplemented`, so `PauliAlgebraElement.__rmul__(A, t)` runs and
returns `self * other`, i.e. `A * {t: 1}` — the algebra element stays
on the left. -/
def rmulTensor (t : PauliTensor) (A : PauliAlgebraElement) : Except PyErr PauliAlgebraElement :=
  A.mulTensor t

/-- `PauliAlgebraElement.__neg__`: `-1 * self`, which dispatches to
`__rmul__` and hence to the scalar branch with `-1`. -/
def negA (A : PauliAlgebraElement) : PauliAlgebraElement := A.mulScalar ⟨-1, 0⟩

end PauliAlgebraElement

/-- `PauliGroupElement.I()` (and the `X`, `Y`, `Z` siblings below):
phase 1 with the corresponding label. -/
def gI : PauliGroupElement := ⟨⟨1, 0⟩, .I⟩

/-- `PauliGroupElement.X()`. -/
def gX : PauliGroupElement := ⟨⟨1, 0⟩, .X⟩

/-- `PauliGroupElement.Y()`. -/
def gY : PauliGroupElement := ⟨⟨1, 0⟩, .Y⟩

/-- `PauliGroupElement.Z()`. -/
def gZ : PauliGroupElement := ⟨⟨1, 0⟩, .Z⟩

/-- The value `PauliGroupElement.__mul__` returns on the group branch
when the constructor check passes: phase
`a.phase * b.phase * table_phase`, label `SIGMA_LIST[table_index]`.
`PauliGroupElement.mulG` equals `.ok` of this whenever both operands
satisfy the constructor invariant (`mulG_ok_of_valid`). -/
def mulG1 (a b : PauliGroupElement) : PauliGroupElement :=
  ⟨a.phase * b.phase * (times_table a.sigma.index b.sigma.index).1,
    SIGMA_LIST.getD (times_table a.sigma.index b.sigma.index).2 .I⟩

/-- Transcribed from the spec's description of tensor multiplication
(spec §4.2): "resulting factor sequence = factorwise group
multiplication of the two normalized factor sequences (position i of a
times position i of b, for all i); resulting phase = product of the two
normalized tensor-level phases".  The raw product tensor before the
final normalization. -/
def PauliTensor.specProduct (a b : PauliTensor) : PauliTensor :=
  ⟨a.factor_phase.phase * b.factor_phase.phase,
    (a.factor_phase.tensor.zip b.factor_phase.tensor).map (fun p => mulG1 p.1 p.2)⟩

/-- Transcribed from the spec's description of `simplify` (§4.3): "for
input pairs (t, c), let t' = t.factorPhase(), p = t'.phase, key = t'
with phase divided out (phase forced to 1); accumulate
new_coeffs[key] += c * p". -/
def specSimplify (A : PauliAlgebraElement) : CoeffMap :=
  A.coeffs.foldl
    (fun acc p =>
      dictInsertAdd acc ⟨⟨1, 0⟩, p.1.factor_phase.tensor⟩ (p.2 * p.1.factor_phase.phase)) []

/-- The spec's closed list of error kinds (§7): `InvalidPhaseError`,
`DimensionMismatchError`, `UnsupportedOperandError`. -/
def threeSpecErrors : List PyErr := [.invalidPhase, .dimensionMismatch, .unsupportedOperand]

/-- Phase-erased copy of a group element: what `dephase` produces on
every group element satisfying the constructor invariant. -/
def phase1 (f : PauliGroupElement) : PauliGroupElement := ⟨⟨1, 0⟩, f.sigma⟩

theorem mapE_ok_of_forall {α β : Type} {f : α → Except PyErr β} {g : α → β} :
    ∀ {l : List α}, (∀ x ∈ l, f x = .ok (g x)) → mapE f l = .ok (l.map g) := by
  intro l
  induction l with
  | nil => intro _; rfl
  | cons x xs ih =>
    intro h
    have hx := h x (by simp)
    have hxs := ih (fun y hy => h y (by simp [hy]))
    simp [mapE, hx, hxs, Except.bind, bind, pure, Except.pure]

theorem mapE_ok_length {α β : Type} {f : α → Except PyErr β} :
    ∀ {l : List α} {l2 : List β}, mapE f l = .ok l2 → l2.length = l.length := by
  intro l
  induction l with
  | nil =>
    intro l2 h
    simp only [mapE] at h
    cases h
    rfl
  | cons x xs ih =>
    intro l2 h
    simp only [mapE] at h
    cases hfx : f x with
    | error e => rw [hfx] at h; simp [Except.bind, bind] at h
    | ok a =>
      rw [hfx] at h
      cases hm : mapE f xs with
      | error e => rw [hm] at h; simp [Except.bind, bind] at h
      | ok as =>
        rw [hm] at h
        simp only [Except.bind, bind, pure, Except.pure, Except.ok.injEq] at h
        subst h
        simp [ih hm]

theorem mapE_error {α β : Type} {f : α → Except PyErr β} :
    ∀ {l : List α} {e : PyErr}, mapE f l = .error e → ∃ x ∈ l, f x = .error e := by
  intro l
  induction l with
  | nil => intro e h; simp only [mapE] at h; cases h
  | cons x xs ih =>
    intro e h
    simp only [mapE] at h
    cases hfx : f x with
    | error e2 =>
      rw [hfx] at h
      simp only [Except.bind, bind, Except.error.injEq] at h
      exact ⟨x, by simp, by rw [hfx, h]⟩
    | ok a =>
      rw [hfx] at h
      cases hm : mapE f xs with
      | error e2 =>
        rw [hm] at h
        simp only [Except.bind, bind, Except.error.injEq] at h
        obtain ⟨y, hy, hfy⟩ := ih (e := e2) hm
        exact ⟨y, by simp [hy], by rw [hfy, h]⟩
      | ok as => rw [hm] at h; simp [Except.bind, bind, pure, Except.pure] at h

theorem foldE_error {γ α : Type} {f : γ → α → Except PyErr γ} (P : PyErr → Prop)
    (hf : ∀ acc x e, f acc x = .error e → P e) :
    ∀ {l : List α} {init : γ} {e : PyErr}, foldE f init l = .error e → P e := by
  intro l
  induction l with
  | nil => intro init e h; simp only [foldE] at h; cases h
  | cons x xs ih =>
    intro init e h
    simp only [foldE] at h
    cases hfx : f init x with
    | error e2 =>
      rw [hfx] at h
      simp only [Except.bind, bind, Except.error.injEq] at h
      exact h ▸ hf init x e2 hfx
    | ok acc2 =>
      rw [hfx] at h
      simp only [Except.bind, bind] at h
      exact ih h

theorem foldE_ok_of_forall {γ α : Type} {f : γ → α → Except PyErr γ} {g : γ → α → γ} :
    ∀ {l : List α} {init : γ}, (∀ acc x, x ∈ l → f acc x = .ok (g acc x)) →
      foldE f init l = .ok (l.foldl g init) := by
  intro l
  induction l with
  | nil => intro init _; rfl
  | cons x xs ih =>
    intro init h
    have hx := h init x (by simp)
    simp only [foldE, List.foldl, hx, Except.bind, bind]
    exact ih (fun acc y hy => h acc y (by simp [hy]))

theorem mem_fourthRoots_iff {p : Cplx} :
    p ∈ fourthRoots ↔ p = ⟨1, 0⟩ ∨ p = ⟨-1, 0⟩ ∨ p = ⟨0, 1⟩ ∨ p = ⟨0, -1⟩ := by
  simp [fourthRoots]

theorem mem_roots_mul {p q : Cplx} (hp : p ∈ fourthRoots) (hq : q ∈ fourthRoots) :
    p * q ∈ fourthRoots := by
  rcases mem_fourthRoots_iff.1 hp with h | h | h | h <;>
    rcases mem_fourthRoots_iff.1 hq with h2 | h2 | h2 | h2 <;>
      subst h <;> subst h2 <;> with_unfolding_all decide

theorem root_mul_cinv {p : Cplx} (hp : p ∈ fourthRoots) : p * Cplx.cinv p = ⟨1, 0⟩ := by
  rcases mem_fourthRoots_iff.1 hp with h | h | h | h <;> subst h <;> with_unfolding_all decide

theorem table_phase_mem (s1 s2 : SIGMA) :
    (times_table s1.index s2.index).1 ∈ fourthRoots := by
  cases s1 <;> cases s2 <;> with_unfolding_all decide

theorem mulG1_valid {a b : PauliGroupElement} (ha : a.valid) (hb : b.valid) :
    (mulG1 a b).valid :=
  mem_roots_mul (mem_roots_mul ha hb) (table_phase_mem a.sigma b.sigma)

theorem mulG_ok_of_valid {a b : PauliGroupElement} (ha : a.valid) (hb : b.valid) :
    PauliGroupElement.mulG a b = .ok (mulG1 a b) := by
  simp only [PauliGroupElement.mulG, PauliGroupElement.mk?, mulG1]
  rw [if_pos (mem_roots_mul (mem_roots_mul ha hb) (table_phase_mem a.sigma b.sigma))]

theorem dephase_of_valid {g : PauliGroupElement} (h : g.valid) :
    PauliTensor.dephase g = phase1 g := by
  simp only [PauliTensor.dephase, phase1, root_mul_cinv h]

theorem dephase_valid {g : PauliGroupElement} (h : g.valid) :
    (PauliTensor.dephase g).valid := by
  rw [dephase_of_valid h]
  simp [phase1, PauliGroupElement.valid, fourthRoots]

theorem factor_phase_of_valid {t : PauliTensor} (h : t.valid) :
    t.factor_phase = ⟨t.overall_phase, t.tensor.map phase1⟩ := by
  unfold PauliTensor.factor_phase
  exact congrArg _ (List.map_congr_left (fun f hf => dephase_of_valid (h f hf)))

theorem cprod_of_all_one {l : List Cplx} (h : ∀ x ∈ l, x = ⟨1, 0⟩) : cprod l = ⟨1, 0⟩ := by
  suffices hgen : ∀ c : Cplx, l.foldl (· * ·) c = c by
    have := hgen 1
    simpa [cprod] using this
  induction l with
  | nil => intro c; rfl
  | cons x xs ih =>
    intro c
    have hx := h x (by simp)
    have : c * x = c := by rw [hx]; exact mul_one c
    simp only [List.foldl, this]
    exact ih (fun y hy => h y (by simp [hy])) c

theorem overall_phase_map_phase1 (p : Cplx) (l : List PauliGroupElement) :
    PauliTensor.overall_phase ⟨p, l.map phase1⟩ = p := by
  unfold PauliTensor.overall_phase
  have : cprod ((l.map phase1).map PauliGroupElement.phase) = ⟨1, 0⟩ := by
    apply cprod_of_all_one
    intro x hx
    simp only [List.map_map, List.mem_map] at hx
    obtain ⟨f, _, hf⟩ := hx
    simp [← hf, Function.comp, phase1]
  rw [this]
  exact mul_one p

theorem phase1_valid (f : PauliGroupElement) : (phase1 f).valid := by
  simp [phase1, PauliGroupElement.valid, fourthRoots]

theorem map_phase1_valid (p : Cplx) (l : List PauliGroupElement) :
    PauliTensor.valid ⟨p, l.map phase1⟩ := by
  intro g hg
  simp only [List.mem_map] at hg
  obtain ⟨f, _, hf⟩ := hg
  exact hf ▸ phase1_valid f

theorem factor_phase_valid {t : PauliTensor} (h : t.valid) : t.factor_phase.valid := by
  rw [factor_phase_of_valid h]
  exact map_phase1_valid _ _

theorem factor_phase_idem {t : PauliTensor} (h : t.valid) :
    t.factor_phase.factor_phase = t.factor_phase := by
  rw [factor_phase_of_valid h, factor_phase_of_valid (map_phase1_valid _ _)]
  rw [overall_phase_map_phase1]
  congr 1
  rw [List.map_map]
  exact List.map_congr_left (fun f _ => rfl)

theorem beq_self_of_valid {t : PauliTensor} (h : t.valid) :
    (t.factor_phase).beq t = true := by
  unfold PauliTensor.beq
  rw [if_pos]
  rw [factor_phase_idem h]
  exact ⟨rfl, rfl⟩

theorem tensor_mul_ok {a b : PauliTensor} (ha : a.valid) (hb : b.valid)
    (hdim : a.dim = b.dim) :
    a.mul b =
      .ok ((PauliTensor.factor_phase
            ⟨⟨1, 0⟩, (a.factor_phase.tensor.zip b.factor_phase.tensor).map
              (fun p => mulG1 p.1 p.2)⟩).mulScalar
        (a.factor_phase.phase * b.factor_phase.phase)) := by
  unfold PauliTensor.mul
  rw [if_neg (by simp [hdim])]
  have hmem : ∀ p ∈ a.factor_phase.tensor.zip b.factor_phase.tensor,
      PauliGroupElement.mulG p.1 p.2 = .ok (mulG1 p.1 p.2) := by
    rintro ⟨p1, p2⟩ hp
    obtain ⟨h1, h2⟩ := List.of_mem_zip hp
    exact mulG_ok_of_valid (factor_phase_valid ha p1 h1) (factor_phase_valid hb p2 h2)
  rw [mapE_ok_of_forall hmem]
  rfl

theorem tensor_mul_ok_dim {a b t : PauliTensor} (h : a.mul b = .ok t) : t.dim = a.dim := by
  unfold PauliTensor.mul at h
  by_cases hd : a.dim = b.dim
  · rw [if_neg (by simp [hd])] at h
    cases hm : mapE (fun p => PauliGroupElement.mulG p.1 p.2)
        (a.factor_phase.tensor.zip b.factor_phase.tensor) with
    | error e => rw [hm] at h; simp [Except.bind, bind] at h
    | ok factors =>
      rw [hm] at h
      simp only [Except.bind, bind, pure, Except.pure, Except.ok.injEq] at h
      subst h
      have hlen := mapE_ok_length hm
      simp only [PauliTensor.dim, PauliTensor.mulScalar, PauliTensor.factor_phase,
        List.length_map] at *
      rw [hlen, List.length_zip]
      simp [hd]
  · rw [if_pos (by simp [hd])] at h
    cases h

theorem tensor_mul_error_dim {a b : PauliTensor} (hd : a.dim ≠ b.dim) :
    a.mul b = .error .dimensionMismatch := by
  unfold PauliTensor.mul
  rw [if_pos (by simp [hd])]

theorem tensor_mul_error_kind {a b : PauliTensor} (ha : a.valid) (hb : b.valid) {e : PyErr}
    (h : a.mul b = .error e) : e = .dimensionMismatch ∧ a.dim ≠ b.dim := by
  by_cases hd : a.dim = b.dim
  · rw [tensor_mul_ok ha hb hd] at h
    cases h
  · rw [tensor_mul_error_dim hd] at h
    cases h
    exact ⟨rfl, hd⟩

theorem sigmaOfChar_error {c : Char} {e : PyErr} (h : PauliTensor.sigmaOfChar c = .error e) :
    e = .keyError := by
  unfold PauliTensor.sigmaOfChar at h
  repeat' split at h
  all_goals cases h
  all_goals rfl

theorem from_str_error {s : String} {e : PyErr} (h : PauliTensor.from_str s = .error e) :
    e = .keyError := by
  unfold PauliTensor.from_str at h
  cases hm : mapE (fun c => do
      pure (⟨⟨1, 0⟩, ← PauliTensor.sigmaOfChar c⟩ : PauliGroupElement)) s.data with
  | error e2 =>
    rw [hm] at h
    simp only [Except.bind, bind, Except.error.injEq] at h
    subst h
    obtain ⟨c, _, hc⟩ := mapE_error hm
    cases hs : PauliTensor.sigmaOfChar c with
    | error e3 =>
      rw [hs] at hc
      simp only [Except.bind, bind, Except.error.injEq] at hc
      exact hc ▸ sigmaOfChar_error hs
    | ok s3 => rw [hs] at hc; simp [Except.bind, bind, pure, Except.pure] at hc
  | ok l => rw [hm] at h; simp [Except.bind, bind, pure, Except.pure] at h

theorem beq_false_of_dim_ne {a b : PauliTensor} (h : a.dim ≠ b.dim) : a.beq b = false := by
  unfold PauliTensor.beq
  rw [if_neg]
  rintro ⟨-, h2⟩
  apply h
  have := congrArg List.length h2
  simpa [PauliTensor.factor_phase, PauliTensor.dim] using this

theorem from_str_ok_dim {s : String} {t : PauliTensor} (h : PauliTensor.from_str s = .ok t) :
    t.dim = s.data.length := by
  unfold PauliTensor.from_str at h
  cases hm : mapE (fun c => do
      pure (⟨⟨1, 0⟩, ← PauliTensor.sigmaOfChar c⟩ : PauliGroupElement)) s.data with
  | error e2 => rw [hm] at h; simp [Except.bind, bind] at h
  | ok l =>
    rw [hm] at h
    simp only [Except.bind, bind, pure, Except.pure, Except.ok.injEq] at h
    subst h
    exact mapE_ok_length hm

theorem simplify_step_error {acc : CoeffMap} {p : PauliTensor × Cplx} {e : PyErr}
    (h : (if p.1.factor_phase.phase = 0 then (.error .zeroDivision : Except PyErr CoeffMap)
      else pure (dictInsertAdd acc (p.1.factor_phase.mulScalar
        (Cplx.cinv p.1.factor_phase.phase)) (p.2 * p.1.factor_phase.phase))) = .error e) :
    e = .zeroDivision := by
  split at h
  · cases h; rfl
  · cases h

theorem simplify_error {A : PauliAlgebraElement} {e : PyErr} (h : A.simplify = .error e) :
    e = .zeroDivision := by
  unfold PauliAlgebraElement.simplify at h
  cases hm : foldE (fun acc (p : PauliTensor × Cplx) =>
      if p.1.factor_phase.phase = 0 then (.error .zeroDivision : Except PyErr CoeffMap)
      else
        pure (dictInsertAdd acc
          (p.1.factor_phase.mulScalar (Cplx.cinv p.1.factor_phase.phase))
          (p.2 * p.1.factor_phase.phase))) [] A.coeffs with
  | error e2 =>
    rw [hm] at h
    simp only [Except.bind, bind, Except.error.injEq] at h
    subst h
    exact foldE_error (· = .zeroDivision) (fun acc p e3 hstep => simplify_step_error hstep) hm
  | ok l => rw [hm] at h; simp [Except.bind, bind, pure, Except.pure] at h

theorem simplify_eq_spec {A : PauliAlgebraElement}
    (h : ∀ p ∈ A.coeffs, p.1.factor_phase.phase ≠ 0) :
    A.simplify = .ok ⟨specSimplify A⟩ := by
  unfold PauliAlgebraElement.simplify specSimplify
  have hstep : ∀ (acc : CoeffMap) (p : PauliTensor × Cplx), p ∈ A.coeffs →
      (if p.1.factor_phase.phase = 0 then (.error .zeroDivision : Except PyErr CoeffMap)
        else
          pure (dictInsertAdd acc
            (p.1.factor_phase.mulScalar (Cplx.cinv p.1.factor_phase.phase))
            (p.2 * p.1.factor_phase.phase)))
        = .ok (dictInsertAdd acc ⟨⟨1, 0⟩, p.1.factor_phase.tensor⟩
            (p.2 * p.1.factor_phase.phase)) := by
    intro acc p hp
    rw [if_neg (h p hp)]
    have h1 : p.1.factor_phase.mulScalar (Cplx.cinv p.1.factor_phase.phase)
        = ⟨⟨1, 0⟩, p.1.factor_phase.tensor⟩ := by
      unfold PauliTensor.mulScalar
      have h2 := Cplx.mul_cinv_self (h p hp)
      rw [h2]
      rfl
    rw [h1]
    rfl
  rw [foldE_ok_of_forall hstep]
  rfl

/-- C1: the left case `A * t == A * {t: 1}` holds by construction
(`__mul__` promotes the tensor), but the claimed right case
`t * A == {t: 1} * A` fails: `PauliAlgebraElement.__rmul__` returns
`self * other`, so `t * A` evaluates to `A * {t: 1}` with the algebra
element on the left.  At t = the X tensor and A = {Y: 1} the code
produces `{-1j·(Z): 1}` while `{t: 1} * A = {X: 1} * {Y: 1}` produces
`{1j·(Z): 1}`, and the two are unequal as algebra elements (their
`__eq__` is False). -/
theorem C1_bare_tensor_promotion :
    (∀ (A : PauliAlgebraElement) (t : PauliTensor),
        A.mulTensor t = A.mulA ⟨[(t, ⟨1, 0⟩)]⟩)
    ∧ PauliAlgebraElement.rmulTensor ⟨⟨1, 0⟩, [gX]⟩ ⟨[(⟨⟨1, 0⟩, [gY]⟩, ⟨1, 0⟩)]⟩
        = .ok ⟨[(⟨⟨0, -1⟩, [gZ]⟩, ⟨1, 0⟩)]⟩
    ∧ PauliAlgebraElement.mulA ⟨[(⟨⟨1, 0⟩, [gX]⟩, ⟨1, 0⟩)]⟩ ⟨[(⟨⟨1, 0⟩, [gY]⟩, ⟨1, 0⟩)]⟩
        = .ok ⟨[(⟨⟨0, 1⟩, [gZ]⟩, ⟨1, 0⟩)]⟩
    ∧ PauliAlgebraElement.beqA ⟨[(⟨⟨0, -1⟩, [gZ]⟩, ⟨1, 0⟩)]⟩ ⟨[(⟨⟨0, 1⟩, [gZ]⟩, ⟨1, 0⟩)]⟩
        = .ok false :=
  ⟨fun _ _ => rfl, by with_unfolding_all decide, by with_unfolding_all decide,
    by with_unfolding_all decide⟩

/-- C2 counterexample: multiplying the group element X (phase 1) by the
scalar 2 — in either operand order — does not succeed with phase 2: the
result goes through the validating constructor and raises
`InvalidPhaseError`. -/
theorem C2_counterexample :
    PauliGroupElement.mulScalar ⟨⟨1, 0⟩, .X⟩ ⟨2, 0⟩ = .error .invalidPhase
    ∧ PauliGroupElement.rmulScalar ⟨2, 0⟩ ⟨⟨1, 0⟩, .X⟩ = .error .invalidPhase := by
  with_unfolding_all decide

/-- C2 amended: `s*g` and `g*s` build `PauliGroupElement(g.phase * s,
g.sigma)` through the validating constructor, so they succeed with
phase `g.phase * s` and the same label exactly when that product is a
fourth root of unity, and raise `InvalidPhaseError` otherwise (so a
scalar like 2 always fails). -/
theorem C2_scalar_revalidation :
    ∀ (g : PauliGroupElement) (s : Cplx),
      (g.phase * s ∈ fourthRoots →
        g.mulScalar s = .ok ⟨g.phase * s, g.sigma⟩
        ∧ PauliGroupElement.rmulScalar s g = .ok ⟨g.phase * s, g.sigma⟩)
      ∧ (g.phase * s ∉ fourthRoots →
        g.mulScalar s = .error .invalidPhase
        ∧ PauliGroupElement.rmulScalar s g = .error .invalidPhase) := by
  intro g s
  constructor
  · intro h
    refine ⟨?_, ?_⟩
    · unfold PauliGroupElement.mulScalar PauliGroupElement.mk?
      rw [if_pos h]
    · unfold PauliGroupElement.rmulScalar PauliGroupElement.mulScalar PauliGroupElement.mk?
      rw [if_pos h]
  · intro h
    refine ⟨?_, ?_⟩
    · unfold PauliGroupElement.mulScalar PauliGroupElement.mk?
      rw [if_neg h]
    · unfold PauliGroupElement.rmulScalar PauliGroupElement.mulScalar PauliGroupElement.mk?
      rw [if_neg h]

theorem C2_scalar_revalidation_witness :
    ((⟨⟨1, 0⟩, .X⟩ : PauliGroupElement).phase * (⟨0, 1⟩ : Cplx) ∈ fourthRoots)
    ∧ (PauliGroupElement.mulScalar ⟨⟨1, 0⟩, .X⟩ ⟨0, 1⟩
          = .ok ⟨(⟨⟨1, 0⟩, .X⟩ : PauliGroupElement).phase * ⟨0, 1⟩, .X⟩
        ∧ PauliGroupElement.rmulScalar ⟨0, 1⟩ ⟨⟨1, 0⟩, .X⟩
          = .ok ⟨(⟨⟨1, 0⟩, .X⟩ : PauliGroupElement).phase * ⟨0, 1⟩, .X⟩) :=
  ⟨by with_unfolding_all decide,
    (C2_scalar_revalidation ⟨⟨1, 0⟩, .X⟩ ⟨0, 1⟩).1 (by with_unfolding_all decide)⟩

/-- C3: the two tensors `PauliTensor(1j, (X,))` and
`PauliTensor(1, (1j*X,))` are equal under the normalized `__eq__`, but
their raw field tuples — exactly what the dataclass-generated
`__hash__` hashes — differ, so they do not hash identically; inserting
a coefficient under each produces two distinct map entries, not one
accumulated entry. -/
theorem C3_structural_hash_two_entries :
    PauliTensor.beq ⟨⟨0, 1⟩, [gX]⟩ ⟨⟨1, 0⟩, [⟨⟨0, 1⟩, .X⟩]⟩ = true
    ∧ PauliTensor.structKey ⟨⟨0, 1⟩, [gX]⟩ ≠ PauliTensor.structKey ⟨⟨1, 0⟩, [⟨⟨0, 1⟩, .X⟩]⟩
    ∧ dictInsertAdd (dictInsertAdd [] ⟨⟨0, 1⟩, [gX]⟩ ⟨1, 0⟩) ⟨⟨1, 0⟩, [⟨⟨0, 1⟩, .X⟩]⟩ ⟨1, 0⟩
        = [(⟨⟨0, 1⟩, [gX]⟩, ⟨1, 0⟩), (⟨⟨1, 0⟩, [⟨⟨0, 1⟩, .X⟩]⟩, ⟨1, 0⟩)] := by
  with_unfolding_all decide

/-- C4 counterexample: `PauliTensor.from_str` on `"A"` fails with
`KeyError`, and `simplify` on an element whose key tensor has overall
phase 0 fails with `ZeroDivisionError`; neither is among the spec's
three error kinds. -/
theorem C4_counterexample :
    PauliTensor.from_str "A" = .error .keyError
    ∧ PyErr.keyError ∉ threeSpecErrors
    ∧ (PauliAlgebraElement.mk [(⟨⟨0, 0⟩, [gX]⟩, ⟨1, 0⟩)]).simplify = .error .zeroDivision
    ∧ PyErr.zeroDivision ∉ threeSpecErrors := by
  with_unfolding_all decide

/-- C4 amended: beyond the spec's three error kinds, exactly two more
failure modes exist — `fromLabelString` fails only with `KeyError` (a
character outside IXYZ), and `simplify` fails only with
`ZeroDivisionError` (a key whose factored-out phase is 0); tensor
multiplication of constructor-valid tensors still fails only with
`DimensionMismatchError`. -/
theorem C4_error_kinds :
    (∀ (s : String) (e : PyErr), PauliTensor.from_str s = .error e → e = .keyError)
    ∧ (∀ (A : PauliAlgebraElement) (e : PyErr), A.simplify = .error e → e = .zeroDivision)
    ∧ (∀ (a b : PauliTensor) (e : PyErr), a.valid → b.valid → a.mul b = .error e →
        e = .dimensionMismatch) :=
  ⟨fun _ _ h => from_str_error h, fun _ _ h => simplify_error h,
    fun _ _ _ ha hb h => (tensor_mul_error_kind ha hb h).1⟩

theorem C4_error_kinds_witness :
    PauliTensor.from_str "A" = .error PyErr.keyError
    ∧ PyErr.keyError = PyErr.keyError :=
  ⟨by with_unfolding_all decide,
    C4_error_kinds.1 "A" .keyError (by with_unfolding_all decide)⟩

/-- C5 counterexample: `fromLabelString("")` succeeds and returns a
tensor whose factor sequence is empty, violating the claimed
`length ≥ 1` invariant. -/
theorem C5_counterexample :
    PauliTensor.from_str "" = .ok ⟨⟨1, 0⟩, []⟩
    ∧ (PauliTensor.mk ⟨1, 0⟩ []).dim = 0 := by
  with_unfolding_all decide

/-- C5 amended: the default constructor yields one factor; for a
NONEMPTY label string `fromLabelString` yields at least one factor (the
empty string yields zero factors, the counterexample); multiplication
preserves the left operand's factor count, and scalar multiplication,
negation and normalization preserve the factor count. -/
theorem C5_factor_count :
    PauliTensor.defaultTensor.dim = 1
    ∧ (∀ (s : String) (t : PauliTensor), s ≠ "" → PauliTensor.from_str s = .ok t → 1 ≤ t.dim)
    ∧ (∀ a b t : PauliTensor, a.mul b = .ok t → t.dim = a.dim)
    ∧ (∀ (t : PauliTensor) (s : Cplx), (t.mulScalar s).dim = t.dim)
    ∧ (∀ t : PauliTensor, t.neg.dim = t.dim)
    ∧ (∀ t : PauliTensor, t.factor_phase.dim = t.dim) := by
  refine ⟨rfl, ?_, fun a b t h => tensor_mul_ok_dim h, fun _ _ => rfl, fun _ => rfl, ?_⟩
  · intro s t hs h
    rw [from_str_ok_dim h]
    rcases hn : s.data with _ | ⟨c, cs⟩
    · exfalso
      apply hs
      cases s with
      | mk data => cases hn; rfl
    · simp
  · intro t
    simp [PauliTensor.factor_phase, PauliTensor.dim]

theorem C5_factor_count_witness :
    ("X" ≠ "" ∧ PauliTensor.from_str "X" = .ok ⟨⟨1, 0⟩, [gX]⟩)
    ∧ 1 ≤ (PauliTensor.mk ⟨1, 0⟩ [gX]).dim :=
  ⟨⟨by with_unfolding_all decide, by with_unfolding_all decide⟩,
    C5_factor_count.2.1 "X" ⟨⟨1, 0⟩, [gX]⟩ (by with_unfolding_all decide)
      (by with_unfolding_all decide)⟩

/-- C6: group multiplication realizes the Pauli relations — every base
label squares to I and multiplies with I as identity; X*Y = iZ,
Y*Z = iX, Z*X = iY; distinct non-identity labels anticommute
(`g1*g2 == -(g2*g1)`, negation being the code's `-1 * element` path);
and in general the product of two constructor-valid elements succeeds
with phase `a.phase * b.phase * table_phase` and the table's label. -/
theorem C6_group_relations :
    (∀ g : SIGMA, PauliGroupElement.mulG ⟨⟨1, 0⟩, g⟩ ⟨⟨1, 0⟩, g⟩ = .ok ⟨⟨1, 0⟩, .I⟩
      ∧ PauliGroupElement.mulG ⟨⟨1, 0⟩, g⟩ ⟨⟨1, 0⟩, .I⟩ = .ok ⟨⟨1, 0⟩, g⟩
      ∧ PauliGroupElement.mulG ⟨⟨1, 0⟩, .I⟩ ⟨⟨1, 0⟩, g⟩ = .ok ⟨⟨1, 0⟩, g⟩)
    ∧ PauliGroupElement.mulG gX gY = .ok ⟨⟨0, 1⟩, .Z⟩
    ∧ PauliGroupElement.mulG gY gZ = .ok ⟨⟨0, 1⟩, .X⟩
    ∧ PauliGroupElement.mulG gZ gX = .ok ⟨⟨0, 1⟩, .Y⟩
    ∧ (∀ g1 g2 : SIGMA, g1 ≠ g2 → g1 ≠ .I → g2 ≠ .I →
        PauliGroupElement.mulG ⟨⟨1, 0⟩, g1⟩ ⟨⟨1, 0⟩, g2⟩
          = (PauliGroupElement.mulG ⟨⟨1, 0⟩, g2⟩ ⟨⟨1, 0⟩, g1⟩).bind PauliGroupElement.neg)
    ∧ (∀ a b : PauliGroupElement, a.valid → b.valid →
        PauliGroupElement.mulG a b = .ok (mulG1 a b)) :=
  ⟨by with_unfolding_all decide, by with_unfolding_all decide,
    by with_unfolding_all decide, by with_unfolding_all decide,
    by with_unfolding_all decide, fun _ _ ha hb => mulG_ok_of_valid ha hb⟩

theorem C6_group_relations_witness :
    (SIGMA.X ≠ SIGMA.Y ∧ SIGMA.X ≠ SIGMA.I ∧ SIGMA.Y ≠ SIGMA.I)
    ∧ PauliGroupElement.mulG ⟨⟨1, 0⟩, .X⟩ ⟨⟨1, 0⟩, .Y⟩
        = (PauliGroupElement.mulG ⟨⟨1, 0⟩, .Y⟩ ⟨⟨1, 0⟩, .X⟩).bind PauliGroupElement.neg :=
  ⟨⟨by decide, by decide, by decide⟩,
    C6_group_relations.2.2.2.2.1 .X .Y (by decide) (by decide) (by decide)⟩

/-- C10: for every tensor whose factors satisfy the group constructor
invariant (which holds for every tensor the public interface can
build), `factor_phase` is idempotent, and it equals the tensor whose
tensor-level phase is `overall_phase` and whose factors are the
original factors with their local phases removed (each factor phase
exactly 1, `phase1`). -/
theorem C10_factor_phase_normalization :
    ∀ t : PauliTensor, t.valid →
      t.factor_phase.factor_phase = t.factor_phase
      ∧ t.factor_phase = ⟨t.overall_phase, t.tensor.map phase1⟩ :=
  fun _ h => ⟨factor_phase_idem h, factor_phase_of_valid h⟩

theorem C10_factor_phase_normalization_witness :
    (PauliTensor.mk ⟨1, 0⟩ [⟨⟨0, 1⟩, .X⟩]).valid
    ∧ ((PauliTensor.mk ⟨1, 0⟩ [⟨⟨0, 1⟩, .X⟩]).factor_phase.factor_phase
          = (PauliTensor.mk ⟨1, 0⟩ [⟨⟨0, 1⟩, .X⟩]).factor_phase
      ∧ (PauliTensor.mk ⟨1, 0⟩ [⟨⟨0, 1⟩, .X⟩]).factor_phase
          = ⟨(PauliTensor.mk ⟨1, 0⟩ [⟨⟨0, 1⟩, .X⟩]).overall_phase,
              (PauliTensor.mk ⟨1, 0⟩ [⟨⟨0, 1⟩, .X⟩]).tensor.map phase1⟩) :=
  ⟨by with_unfolding_all decide,
    C10_factor_phase_normalization ⟨⟨1, 0⟩, [⟨⟨0, 1⟩, .X⟩]⟩ (by with_unfolding_all decide)⟩

/-- C9: for constructor-valid tensors, multiplication fails — and fails
with `DimensionMismatchError` — exactly when the factor counts differ
(the same `__mul__` handles both operand orders, and the same check
fires inside an algebra-element product through the key multiplication);
equality of mismatched-dimension tensors returns `False` rather than
raising, and algebra addition accumulates mismatched raw keys without
any validation. -/
theorem C9_dimension_mismatch :
    (∀ a b : PauliTensor, a.valid → b.valid →
      (a.mul b = .error .dimensionMismatch ↔ a.dim ≠ b.dim)
      ∧ ((∃ e, a.mul b = .error e) ↔ a.dim ≠ b.dim))
    ∧ (∀ (a b : PauliTensor) (c1 c2 : Cplx), a.valid → b.valid →
        (PauliAlgebraElement.mulA ⟨[(a, c1)]⟩ ⟨[(b, c2)]⟩ = .error .dimensionMismatch
          ↔ a.dim ≠ b.dim))
    ∧ (∀ a b : PauliTensor, a.dim ≠ b.dim → a.beq b = false)
    ∧ (∀ (t1 t2 : PauliTensor) (c1 c2 : Cplx), t1 ≠ t2 →
        PauliAlgebraElement.add ⟨[(t1, c1)]⟩ ⟨[(t2, c2)]⟩ = ⟨[(t1, c1), (t2, c2)]⟩) := by
  refine ⟨?_, ?_, fun a b h => beq_false_of_dim_ne h, ?_⟩
  · intro a b ha hb
    constructor
    · constructor
      · intro h
        exact (tensor_mul_error_kind ha hb h).2
      · intro hd
        exact tensor_mul_error_dim hd
    · constructor
      · rintro ⟨e, h⟩
        exact (tensor_mul_error_kind ha hb h).2
      · intro hd
        exact ⟨_, tensor_mul_error_dim hd⟩
  · intro a b c1 c2 ha hb
    by_cases hd : a.dim = b.dim
    · simp only [PauliAlgebraElement.mulA, foldE, tensor_mul_ok ha hb hd,
        Except.bind, bind, pure, Except.pure]
      simp [hd]
    · simp only [PauliAlgebraElement.mulA, foldE, tensor_mul_error_dim hd,
        Except.bind, bind, pure, Except.pure]
      simp [hd]
  · intro t1 t2 c1 c2 h
    simp [PauliAlgebraElement.add, dictInsertAdd, h]

theorem C9_dimension_mismatch_witness :
    ((PauliTensor.mk ⟨1, 0⟩ [gX]).valid ∧ (PauliTensor.mk ⟨1, 0⟩ [gX, gX]).valid)
    ∧ ((PauliTensor.mk ⟨1, 0⟩ [gX]).mul ⟨⟨1, 0⟩, [gX, gX]⟩ = .error .dimensionMismatch
        ↔ (PauliTensor.mk ⟨1, 0⟩ [gX]).dim ≠ (PauliTensor.mk ⟨1, 0⟩ [gX, gX]).dim)
    ∧ ((∃ e, (PauliTensor.mk ⟨1, 0⟩ [gX]).mul ⟨⟨1, 0⟩, [gX, gX]⟩ = .error e)
        ↔ (PauliTensor.mk ⟨1, 0⟩ [gX]).dim ≠ (PauliTensor.mk ⟨1, 0⟩ [gX, gX]).dim) :=
  ⟨⟨by with_unfolding_all decide, by with_unfolding_all decide⟩,
    (C9_dimension_mismatch.1 ⟨⟨1, 0⟩, [gX]⟩ ⟨⟨1, 0⟩, [gX, gX]⟩
      (by with_unfolding_all decide) (by with_unfolding_all decide)).1,
    (C9_dimension_mismatch.1 ⟨⟨1, 0⟩, [gX]⟩ ⟨⟨1, 0⟩, [gX, gX]⟩
      (by with_unfolding_all decide) (by with_unfolding_all decide)).2⟩

theorem mul_result_beq {prods : List PauliGroupElement} {φ : Cplx}
    (hv : ∀ x ∈ prods, x.valid) :
    ((PauliTensor.factor_phase ⟨⟨1, 0⟩, prods⟩).mulScalar φ).beq ⟨φ, prods⟩ = true
    ∧ ∀ f ∈ ((PauliTensor.factor_phase ⟨⟨1, 0⟩, prods⟩).mulScalar φ).tensor,
        f.phase = ⟨1, 0⟩ := by
  have hmapdephase : prods.map PauliTensor.dephase = prods.map phase1 :=
    List.map_congr_left (fun x hx => dephase_of_valid (hv x hx))
  have hr : (PauliTensor.factor_phase ⟨⟨1, 0⟩, prods⟩).mulScalar φ
      = ⟨(⟨1, 0⟩ : Cplx) * cprod (prods.map PauliGroupElement.phase) * φ,
          prods.map phase1⟩ := by
    show (⟨PauliTensor.overall_phase ⟨⟨1, 0⟩, prods⟩ * φ,
        prods.map PauliTensor.dephase⟩ : PauliTensor) = _
    rw [hmapdephase]
    rfl
  constructor
  · have hfp1 : (⟨(⟨1, 0⟩ : Cplx) * cprod (prods.map PauliGroupElement.phase) * φ,
        prods.map phase1⟩ : PauliTensor).factor_phase
        = ⟨(⟨1, 0⟩ : Cplx) * cprod (prods.map PauliGroupElement.phase) * φ,
            prods.map phase1⟩ := by
      rw [factor_phase_of_valid (map_phase1_valid _ prods)]
      rw [overall_phase_map_phase1]
      congr 1
      rw [List.map_map]
      exact List.map_congr_left (fun x _ => rfl)
    have hfp2 : (⟨φ, prods⟩ : PauliTensor).factor_phase
        = ⟨φ * cprod (prods.map PauliGroupElement.phase), prods.map phase1⟩ := by
      rw [factor_phase_of_valid (fun g hg => hv g hg)]
      rfl
    have hcond : (⟨(⟨1, 0⟩ : Cplx) * cprod (prods.map PauliGroupElement.phase) * φ,
          prods.map phase1⟩ : PauliTensor).factor_phase.phase
          = (⟨φ, prods⟩ : PauliTensor).factor_phase.phase
        ∧ (⟨(⟨1, 0⟩ : Cplx) * cprod (prods.map PauliGroupElement.phase) * φ,
          prods.map phase1⟩ : PauliTensor).factor_phase.tensor
          = (⟨φ, prods⟩ : PauliTensor).factor_phase.tensor := by
      rw [hfp1, hfp2]
      constructor
      · show (⟨1, 0⟩ : Cplx) * cprod (prods.map PauliGroupElement.phase) * φ
            = φ * cprod (prods.map PauliGroupElement.phase)
        rw [show ((⟨1, 0⟩ : Cplx)) = 1 from rfl, one_mul, mul_comm]
      · rfl
    rw [hr]
    unfold PauliTensor.beq
    rw [if_pos hcond]
  · intro f hf
    rw [hr] at hf
    simp only [List.mem_map] at hf
    obtain ⟨x, hx, rfl⟩ := hf
    rfl

/-- C7: multiplying two constructor-valid tensors of equal dimension
succeeds; the result equals (under the source's normalized tensor
equality) the spec-described raw product — positionwise group products
of the two normalized factor sequences with phase the product of the
two normalized tensor-level phases — and the returned tensor is itself
phase-factored (every factor phase exactly 1).  The three concrete
identities of the spec hold:
`XXX*XXX == III`, `XYZ*XYZ == III`, `XXX*XYZ == IZY`. -/
theorem C7_tensor_multiplication :
    (∀ a b : PauliTensor, a.valid → b.valid → a.dim = b.dim →
      ∃ r, a.mul b = .ok r ∧ r.beq (a.specProduct b) = true
        ∧ ∀ f ∈ r.tensor, f.phase = ⟨1, 0⟩)
    ∧ (do
        let a ← PauliTensor.from_str "XXX"
        let b ← PauliTensor.from_str "XXX"
        let c ← PauliTensor.from_str "III"
        let p ← a.mul b
        pure (p.beq c) : Except PyErr Bool) = .ok true
    ∧ (do
        let a ← PauliTensor.from_str "XYZ"
        let b ← PauliTensor.from_str "XYZ"
        let c ← PauliTensor.from_str "III"
        let p ← a.mul b
        pure (p.beq c) : Except PyErr Bool) = .ok true
    ∧ (do
        let a ← PauliTensor.from_str "XXX"
        let b ← PauliTensor.from_str "XYZ"
        let c ← PauliTensor.from_str "IZY"
        let p ← a.mul b
        pure (p.beq c) : Except PyErr Bool) = .ok true := by
  refine ⟨?_, by with_unfolding_all decide, by with_unfolding_all decide,
    by with_unfolding_all decide⟩
  intro a b ha hb hdim
  have hv : ∀ x ∈ (a.factor_phase.tensor.zip b.factor_phase.tensor).map
      (fun p => mulG1 p.1 p.2), x.valid := by
    intro x hx
    simp only [List.mem_map] at hx
    obtain ⟨⟨p1, p2⟩, hp, rfl⟩ := hx
    exact mulG1_valid (factor_phase_valid ha _ (List.of_mem_zip hp).1)
      (factor_phase_valid hb _ (List.of_mem_zip hp).2)
  obtain ⟨h1, h2⟩ := mul_result_beq (φ := a.factor_phase.phase * b.factor_phase.phase) hv
  exact ⟨_, tensor_mul_ok ha hb hdim, h1, h2⟩

theorem C7_tensor_multiplication_witness :
    ((PauliTensor.mk ⟨1, 0⟩ [gX]).valid ∧ (PauliTensor.mk ⟨1, 0⟩ [gY]).valid
      ∧ (PauliTensor.mk ⟨1, 0⟩ [gX]).dim = (PauliTensor.mk ⟨1, 0⟩ [gY]).dim)
    ∧ ∃ r, (PauliTensor.mk ⟨1, 0⟩ [gX]).mul ⟨⟨1, 0⟩, [gY]⟩ = .ok r
        ∧ r.beq ((PauliTensor.mk ⟨1, 0⟩ [gX]).specProduct ⟨⟨1, 0⟩, [gY]⟩) = true
        ∧ ∀ f ∈ r.tensor, f.phase = ⟨1, 0⟩ :=
  ⟨⟨by with_unfolding_all decide, by with_unfolding_all decide, rfl⟩,
    C7_tensor_multiplication.1 ⟨⟨1, 0⟩, [gX]⟩ ⟨⟨1, 0⟩, [gY]⟩
      (by with_unfolding_all decide) (by with_unfolding_all decide) rfl⟩

/-- C8: `simplify` computes exactly the spec's accumulation — for each
pair `(t, c)`, with `t' = t.factor_phase()` and `p = t'.phase`, it
accumulates `c * p` under the key `t'` with its phase divided out
(structurally: phase exactly 1), merging distinct raw keys with the
same normalized form — whenever no key's factored phase is 0 (the
division guard).  The spec's concrete examples hold:
`{1j·III: 1, 2·XXX: 2}` simplifies to `{III: 1j, XXX: 4}`, and with the
extra raw term `{1j·XXX: 1}` it simplifies to
`{III: 1j, XXX: 4+1j}`. -/
theorem C8_simplify_accumulation :
    (∀ A : PauliAlgebraElement, (∀ p ∈ A.coeffs, p.1.factor_phase.phase ≠ 0) →
      A.simplify = .ok ⟨specSimplify A⟩)
    ∧ (PauliAlgebraElement.mk [(⟨⟨0, 1⟩, [gI, gI, gI]⟩, ⟨1, 0⟩),
          (⟨⟨2, 0⟩, [gX, gX, gX]⟩, ⟨2, 0⟩)]).simplify
        = .ok ⟨[(⟨⟨1, 0⟩, [gI, gI, gI]⟩, ⟨0, 1⟩), (⟨⟨1, 0⟩, [gX, gX, gX]⟩, ⟨4, 0⟩)]⟩
    ∧ (PauliAlgebraElement.mk [(⟨⟨0, 1⟩, [gI, gI, gI]⟩, ⟨1, 0⟩),
          (⟨⟨2, 0⟩, [gX, gX, gX]⟩, ⟨2, 0⟩), (⟨⟨0, 1⟩, [gX, gX, gX]⟩, ⟨1, 0⟩)]).simplify
        = .ok ⟨[(⟨⟨1, 0⟩, [gI, gI, gI]⟩, ⟨0, 1⟩), (⟨⟨1, 0⟩, [gX, gX, gX]⟩, ⟨4, 1⟩)]⟩ :=
  ⟨fun _ h => simplify_eq_spec h, by with_unfolding_all decide,
    by with_unfolding_all decide⟩

theorem C8_simplify_accumulation_witness :
    (∀ p ∈ (PauliAlgebraElement.mk [(⟨⟨0, 1⟩, [gI, gI, gI]⟩, ⟨1, 0⟩),
        (⟨⟨2, 0⟩, [gX, gX, gX]⟩, ⟨2, 0⟩)]).coeffs, p.1.factor_phase.phase ≠ 0)
    ∧ (PauliAlgebraElement.mk [(⟨⟨0, 1⟩, [gI, gI, gI]⟩, ⟨1, 0⟩),
          (⟨⟨2, 0⟩, [gX, gX, gX]⟩, ⟨2, 0⟩)]).simplify
        = .ok ⟨specSimplify ⟨[(⟨⟨0, 1⟩, [gI, gI, gI]⟩, ⟨1, 0⟩),
            (⟨⟨2, 0⟩, [gX, gX, gX]⟩, ⟨2, 0⟩)]⟩⟩ :=
  ⟨by with_unfolding_all decide,
    C8_simplify_accumulation.1 ⟨[(⟨⟨0, 1⟩, [gI, gI, gI]⟩, ⟨1, 0⟩),
      (⟨⟨2, 0⟩, [gX, gX, gX]⟩, ⟨2, 0⟩)]⟩ (by with_unfolding_all decide)⟩
